import Mathlib

/-!
# Verification of the video_compressor front-end orchestration logic

Shallow embedding of `src/app/src/routes/+page.svelte` (the job scheduler /
worker pool, progress-event listeners, output-path resolver, cancellation
handler and aggregate-progress computation) together with proofs of the
specification claims about them.

Conventions of the embedding:
* JavaScript strings are Lean `String`s; the JS string primitives used by the
  source (`split`, `substring`, `lastIndexOf`, `toLowerCase`, `startsWith`,
  `endsWith`, `replace(/\\/g,"/")`, `replace(/\/$/,"")`) are re-implemented
  below on `List Char` so that they compute by kernel reduction.
* JS numbers are modelled as `ℚ`; `Math.round` is Mathlib's `round`
  (`round x = ⌊x + 1/2⌋`, which agrees with JS round-half-toward-+∞).
* `undefined`-able fields and the `??` operator are modelled with `Option`.
* The async worker pool is modelled as a small-step transition relation on a
  scheduler state.
-/

namespace VideoCompressor

/-! ## JS string primitives -/

/-- `p.replace(/\\/g, "/")` — normalize path separators. -/
def jsNormalizeSep (p : String) : String :=
  ⟨p.data.map (fun c => if c = '\\' then '/' else c)⟩

/-- `s.toLowerCase()` (ASCII, which is all the source relies on). -/
def jsToLower (s : String) : String :=
  ⟨s.data.map Char.toLower⟩

/-- `s.replace(/\/$/, "")` — remove one trailing slash if present. -/
def stripTrailingSlash (s : String) : String :=
  if s.data.getLast? = some '/' then ⟨s.data.dropLast⟩ else s

/-- `s.startsWith(p)` (computable re-implementation of
`String.prototype.startsWith`). -/
def strStartsWith (s p : String) : Bool :=
  p.data.isPrefixOf s.data

/-- `s.endsWith(p)`. -/
def strEndsWith (s p : String) : Bool :=
  p.data.isSuffixOf s.data

/-- `s.includes(c)` for a single-character needle. -/
def strContainsChar (s : String) (c : Char) : Bool :=
  s.data.contains c

/-- `s.lastIndexOf(c)` for a single-character needle: the index (in characters)
of the last occurrence, or `-1` when absent — exactly the JS contract. -/
def lastIndexOfChar (s : String) (c : Char) : Int :=
  match s.data.reverse.findIdx? (fun d => d = c) with
  | none => -1
  | some k => (s.data.length : Int) - 1 - k

/-- `s.substring(0, e)`: JS clamps a negative end index to `0`. -/
def jsSubstringTo (s : String) (e : Int) : String :=
  ⟨s.data.take e.toNat⟩

/-- `s.substring(b)`: drop the first `b` characters. -/
def jsSubstringFrom (s : String) (b : Nat) : String :=
  ⟨s.data.drop b⟩

/-- Auxiliary for `jsSplitChar`: split a character list at every occurrence of
`sep`, preserving empty pieces (JS `String.prototype.split` semantics). -/
def splitCharAux (sep : Char) : List Char → List (List Char)
  | [] => [[]]
  | c :: cs =>
      match splitCharAux sep cs with
      | [] => [[]]
      | h :: t => if c = sep then [] :: h :: t else (c :: h) :: t

/-- `s.split(sep)` for a single-character separator. -/
def jsSplitChar (s : String) (sep : Char) : List String :=
  (splitCharAux sep s.data).map (fun l => ⟨l⟩)

/-- `input.split(separator).pop() || "unknown"`. -/
def jsSplitPop (s : String) (sep : Char) : String :=
  let last := (jsSplitChar s sep).getLastD ""
  if last = "" then "unknown" else last

/-- The JS `a ?? b` nullish-coalescing operator on optional values. -/
def jsNullish {α : Type} : Option α → Option α → Option α
  | some a, _ => some a
  | none, b => b

/-! ## Output Path Resolver (`getOutputFilePath`, +page.svelte lines 627–715) -/

/-- Embedding of `getOutputFilePath(input, outputDir, format, suffix,
inputRoot)`. Argument order and all intermediate steps follow the source. -/
def getOutputFilePath (input outputDir format suffix inputRoot : String) :
    String :=
  let normInput := jsNormalizeSep input
  let normInputRoot := stripTrailingSlash (jsNormalizeSep inputRoot)
  let normOutputDir := stripTrailingSlash (jsNormalizeSep outputDir)
  let separator : Char := if strContainsChar input '\\' then '\\' else '/'
  let fileName := jsSplitPop input separator
  let nameNoExt :=
    let stem := jsSubstringTo fileName (lastIndexOfChar fileName '.')
    if stem = "" then fileName else stem
  -- `const isDifferentDir = normOutputDir && normOutputDir.toLowerCase() !==
  --    normInputRoot.toLowerCase();`
  let isDifferentDir : Bool :=
    normOutputDir ≠ "" && jsToLower normOutputDir ≠ jsToLower normInputRoot
  let targetDir :=
    if isDifferentDir &&
        strStartsWith (jsToLower normInput) (jsToLower normInputRoot) then
      let relativePath := jsSubstringFrom normInput normInputRoot.data.length
      let relativeDir := jsSubstringTo relativePath
        (lastIndexOfChar relativePath '/')
      normOutputDir ++ relativeDir
    else
      jsSubstringTo input (lastIndexOfChar input separator)
  -- the source computes `finalSuffix` by an `if` whose two branches coincide
  let normInDir :=
    jsToLower (jsNormalizeSep (jsSubstringTo input (lastIndexOfChar input separator)))
  let normTargetDir := jsToLower (jsNormalizeSep targetDir)
  let finalSuffix := if normInDir = normTargetDir then suffix else suffix
  let outName := nameNoExt ++ finalSuffix ++ "." ++ format
  let targetDir' :=
    if targetDir ≠ "" && !strEndsWith targetDir "/" then targetDir ++ "/"
    else targetDir
  targetDir' ++ outName

/-! ## Data model (`VideoInfo` records of `$lib/types`, status strings) -/

/-- Nested `outputInfo` object of a progress event / file record; only the
fields the listeners read are modelled (the source copies the object opaquely
and then projects `vmaf` and `vmafDevice` out of it). -/
structure OutputInfo where
  vmaf : Option ℚ
  vmafDevice : Option String
deriving Repr, DecidableEq

/-- One file record of the session (`VideoInfo` in `$lib/types`): the fields
read or written by the scheduler, the progress listeners, the cancellation
handler and the aggregate-progress computation. Statuses are the literal
status strings of the source. -/
structure FileJob where
  path : String
  status : String
  progress : Option ℚ
  vmafSearchEndProgress : Option ℚ
  speed : Option ℚ
  bitrateKbps : Option ℚ
  outputInfo : Option OutputInfo
  vmaf : Option ℚ
  vmafDevice : Option String
deriving Repr, DecidableEq

/-- `files[i] = g(files[i])` guarded by bounds, as JS index assignment on an
existing index behaves (out-of-range indices never occur in the source). -/
def listModify {α : Type} (l : List α) (i : Nat) (g : α → α) : List α :=
  match l.get? i with
  | some a => l.set i (g a)
  | none => l

/-! ## `video-progress` listener (+page.svelte lines 424–497) -/

/-- Payload of a `video-progress` event (both the camelCase and snake_case
spellings the listener reconciles). -/
structure ProgressEvent where
  path : String
  progress : ℚ
  status : String
  speed : Option ℚ
  bitrateKbps : Option ℚ
  bitrate_kbps : Option ℚ
  outputInfo : Option OutputInfo
  output_info : Option OutputInfo
deriving Repr, DecidableEq

/-- Lines 453–461: adjusted progress for the quality-target compression phase.
`searchEndProgress` is `files[index].vmafSearchEndProgress ?? 50`, `raw` is
the event's `progress`.
```
const compressionPhaseProgress = Math.max(0, (progress - 50) * 2);
const remainingRange = 100 - searchEndProgress;
adjustedProgress = Math.round(searchEndProgress +
  (compressionPhaseProgress / 100) * remainingRange);
``` -/
def foundCrfAdjustedProgress (searchEndProgress raw : ℚ) : ℚ :=
  let compressionPhaseProgress := max 0 ((raw - 50) * 2)
  let remainingRange := 100 - searchEndProgress
  ((round (searchEndProgress + compressionPhaseProgress / 100 * remainingRange) : ℤ) : ℚ)

/-- The body of the `video-progress` listener applied to the matched file
record (lines 437–491). -/
def applyVideoProgressToFile (f : FileJob) (ev : ProgressEvent) : FileJob :=
  -- "Don't overwrite 'Cancelled' status with stale backend updates"
  if f.status = "Cancelled" && strStartsWith ev.status "Processing" then f
  else
    let adjustedProgress :=
      if strStartsWith ev.status "Found CRF" then
        foundCrfAdjustedProgress (f.vmafSearchEndProgress.getD 50) ev.progress
      else ev.progress
    { f with
      progress := some adjustedProgress
      status := ev.status
      speed := jsNullish ev.speed f.speed
      bitrateKbps := jsNullish ev.bitrateKbps (jsNullish ev.bitrate_kbps f.bitrateKbps)
      outputInfo := jsNullish ev.outputInfo (jsNullish ev.output_info f.outputInfo)
      vmaf := jsNullish (ev.outputInfo.bind OutputInfo.vmaf)
        (jsNullish (ev.output_info.bind OutputInfo.vmaf) f.vmaf)
      vmafDevice := jsNullish (ev.outputInfo.bind OutputInfo.vmafDevice)
        (jsNullish (ev.output_info.bind OutputInfo.vmafDevice) f.vmafDevice) }

/-- The whole `video-progress` listener: find the file by path (`findIndex`)
and update it in place; events for unknown paths are ignored. -/
def applyVideoProgress (files : List FileJob) (ev : ProgressEvent) :
    List FileJob :=
  match files.findIdx? (fun f => f.path = ev.path) with
  | none => files
  | some i => listModify files i (fun f => applyVideoProgressToFile f ev)

/-! ## `vmaf-search-progress` listener (+page.svelte lines 500–539) -/

/-- Payload of a `vmaf-search-progress` event. -/
structure SearchEvent where
  path : String
  iteration : Nat
  maxIterations : Nat
  currentCrf : ℚ
  currentVmaf : ℚ
  targetVmaf : ℚ
  bestCrf : Option ℚ
  bestVmaf : Option ℚ
deriving Repr, DecidableEq

/-- `v.toFixed(1)`: decimal rendering with one fractional digit. -/
def toFixed1 (q : ℚ) : String :=
  let t : ℤ := round (q * 10)
  (if t < 0 then "-" else "") ++ toString (t.natAbs / 10) ++ "." ++
    toString (t.natAbs % 10)

/-- The status text built by the search listener (lines 516–524). -/
def searchStatusText (ev : SearchEvent) : String :=
  let base := "Searching CRF (" ++ toString ev.iteration ++ "/" ++
    toString ev.maxIterations ++ ")"
  let base :=
    if ev.currentVmaf > 0 then
      base ++ " | CRF " ++ toString (round ev.currentCrf : ℤ) ++ " → VMAF " ++
        toFixed1 ev.currentVmaf
    else
      base ++ " | Testing CRF " ++ toString (round ev.currentCrf : ℤ) ++ "..."
  match ev.bestCrf with
  | some b => base ++ " | Best: CRF " ++ toString (round b : ℤ)
  | none => base

/-- Line 528: `Math.round((iteration / maxIterations) * 50)` — the search
phase mapped into the 0–50 range. -/
def searchPhaseProgress (iteration maxIterations : Nat) : ℤ :=
  round ((iteration : ℚ) / (maxIterations : ℚ) * 50)

/-- The body of the `vmaf-search-progress` listener applied to the matched
file record (lines 514–536). Note: unlike the `video-progress` listener it
has no `Cancelled` guard. -/
def applySearchProgressToFile (f : FileJob) (ev : SearchEvent) : FileJob :=
  let searchProgress : ℚ :=
    ((searchPhaseProgress ev.iteration ev.maxIterations : ℤ) : ℚ)
  { f with
    status := searchStatusText ev
    progress := some searchProgress
    vmafSearchEndProgress := some searchProgress }

/-- The whole `vmaf-search-progress` listener. -/
def applySearchProgress (files : List FileJob) (ev : SearchEvent) :
    List FileJob :=
  match files.findIdx? (fun f => f.path = ev.path) with
  | none => files
  | some i => listModify files i (fun f => applySearchProgressToFile f ev)

/-! ## Session aggregate progress (`processingStats`, lines 53–103) -/

/-- The per-job contribution of the total-progress loop (lines 58–88):
`1` for `Done`/`Evaluating`/`Waiting for VMAF`/`Skipped`, `progress/100`
(with `f.progress || 0`) for the five in-progress status families, `0`
otherwise. -/
def jobContribution (f : FileJob) : ℚ :=
  if f.status = "Done" || f.status = "Evaluating" ||
      f.status = "Waiting for VMAF" || f.status = "Skipped" then 1
  else if f.status = "Processing (Pass 1/2)" then f.progress.getD 0 / 100
  else if f.status = "Processing (Pass 2/2)" then f.progress.getD 0 / 100
  else if strStartsWith f.status "Searching CRF" then f.progress.getD 0 / 100
  else if strStartsWith f.status "Found CRF" then f.progress.getD 0 / 100
  else if strStartsWith f.status "Processing" then f.progress.getD 0 / 100
  else 0

/-- Line 91: `totalProgress = totalCount > 0 ? (progressSum / totalCount) * 100 : 0`. -/
def totalProgress (files : List FileJob) : ℚ :=
  if 0 < files.length then
    ((files.map jobContribution).sum / (files.length : ℚ)) * 100
  else 0

/-- The in-progress status families (compression single-pass and two-pass,
quality search, quality-target compression). -/
def inProgressStatus (st : String) : Bool :=
  strStartsWith st "Processing" || strStartsWith st "Searching CRF" ||
    strStartsWith st "Found CRF"

/-- Per-job contribution as the spec words it (§4.4 session aggregate):
`1.0` for `Done`/`Evaluating`/`Skipped`, `progressPercent / 100` for any
in-progress status, `0` for everything else (`Queued`/`Error`/`Cancelled`).
The spec's abstract `Evaluating` status covers the two concrete
evaluation-phase strings `"Evaluating"` and `"Waiting for VMAF"`. Stated for
comparison against `jobContribution`, which is read off the source. -/
def specJobContribution (f : FileJob) : ℚ :=
  if f.status = "Done" || f.status = "Evaluating" ||
      f.status = "Waiting for VMAF" || f.status = "Skipped" then 1
  else if inProgressStatus f.status then f.progress.getD 0 / 100
  else 0

/-! ## Cancellation (`handleCancel`, lines 925–951) -/

/-- The status test of the `handleCancel` loop (lines 933–939): exactly the
statuses denoting an active subprocess attempt. -/
def activeAttemptStatus (st : String) : Bool :=
  strStartsWith st "Processing" || strStartsWith st "Searching CRF" ||
    strStartsWith st "Found CRF" || st = "Waiting for VMAF" ||
    st = "Evaluating"

/-- The per-file update of `handleCancel` (line 942): immediate UI feedback
`{ ...files[i], status: "Cancelled", progress: 0 }` for every file whose
status is an active attempt. -/
def cancelFile (f : FileJob) : FileJob :=
  if activeAttemptStatus f.status then
    { f with status := "Cancelled", progress := some 0 }
  else f

/-- `handleCancel`'s effect on the whole file list. -/
def handleCancelFiles (files : List FileJob) : List FileJob :=
  files.map cancelFile

/-! ## Scheduler (`handleStart`, lines 721–913) -/

/-- Line 845: `const concurrency = settings.ffmpegThreads || 1;`
(JS `||` sends both `undefined` and `0` to `1`). -/
def effectiveConcurrency (ffmpegThreads : Nat) : Nat :=
  if ffmpegThreads = 0 then 1 else ffmpegThreads

/-- The queue filter of lines 725–728 / 841–843: a file is (re-)enqueued iff
its status is neither `"Done"` nor `"Error"`. -/
def pendingFilter (f : FileJob) : Bool :=
  f.status ≠ "Done" && f.status ≠ "Error"

/-- The queue of indices built by `handleStart` (lines 810–843): `order` is
the index order after the optional `sortStore` sort (a permutation of
`List.range files.length`; the identity when no sort column is set); the
queue keeps the indices whose file passes `pendingFilter`. -/
def handleStartQueue (files : List FileJob) (order : List Nat) : List Nat :=
  order.filter (fun i =>
    match files.get? i with
    | some f => pendingFilter f
    | none => false)

/-- Line 906: `Array(Math.min(concurrency, queue.length))` — the number of
workers spawned. -/
def spawnCount (concurrency queueLen : Nat) : Nat :=
  min concurrency queueLen

/-- Lines 877–879: the status update at the top of a worker iteration
(`files[i].status = "Processing"; files[i].progress = 0`). -/
def startJob (files : List FileJob) (i : Nat) : List FileJob :=
  listModify files i (fun f => { f with status := "Processing", progress := some 0 })

/-- Lines 897–901: the `catch` branch of the worker — mark the job `Error`
unless it was already `Cancelled`. -/
def markError (files : List FileJob) (i : Nat) : List FileJob :=
  listModify files i (fun f =>
    if f.status ≠ "Cancelled" then { f with status := "Error" } else f)

/-- One worker of the pool, run sequentially over its queue (lines 847–904).
`invokeFails i` says whether `invoke("start_processing", …)` for job `i`
throws; `backendRun i files` is the event-driven state the session reaches
while awaiting that invocation (the backend's progress/terminal events for
job `i`); the `shouldStop`/`isPaused` flags are sampled as constants. -/
def runWorker (invokeFails : Nat → Bool)
    (backendRun : Nat → List FileJob → List FileJob)
    (shouldStop isPaused : Bool) :
    List FileJob → List Nat → List FileJob
  | files, [] => files
  | files, i :: rest =>
    if shouldStop || isPaused then files
    else
      let files₁ := startJob files i
      -- "Check stop or pause flag again before starting expensive operation"
      if shouldStop || isPaused then
        listModify files₁ i (fun f => { f with status := "Pending" })
      else
        let files₂ := backendRun i files₁
        let files₃ := if invokeFails i then markError files₂ i else files₂
        runWorker invokeFails backendRun shouldStop isPaused files₃ rest

/-! ## Worker-pool small-step model (for the concurrency bound)

The async worker pool of `handleStart` (lines 841–913) interleaves at its
`await` points only. A scheduler state holds the per-file status strings, the
shared queue of indices, and one slot per spawned worker (`none` = between
jobs, `some i` = driving job `i`). The steps are: the atomic
`queue.shift()` + `status = "Processing"` at the top of a worker iteration; a
backend event updating the status of the job a worker is currently driving
(progress, search, cancellation and terminal events all land here); and the
resolution of the worker's `invoke`, whose job has reached a non-active
status (the Encoding Service Client emits its terminal outcome before the
invocation resolves). -/

structure SchedState where
  statuses : List String
  queue : List Nat
  workers : List (Option Nat)
deriving Repr, DecidableEq

/-- The job indices currently being driven by some worker. -/
def busyList (s : SchedState) : List Nat :=
  s.workers.filterMap id

/-- One interleaving step of the worker pool. -/
inductive SchedStep : SchedState → SchedState → Prop
  | pop (s : SchedState) (w i : Nat) (rest : List Nat)
      (hw : s.workers.get? w = some none) (hq : s.queue = i :: rest) :
      SchedStep s ⟨s.statuses.set i "Processing", rest, s.workers.set w (some i)⟩
  | event (s : SchedState) (w i : Nat) (st : String)
      (hw : s.workers.get? w = some (some i)) :
      SchedStep s ⟨s.statuses.set i st, s.queue, s.workers⟩
  | finish (s : SchedState) (w i : Nat) (st : String)
      (hw : s.workers.get? w = some (some i))
      (hst : activeAttemptStatus st = false) :
      SchedStep s ⟨s.statuses.set i st, s.queue, s.workers.set w none⟩

/-- Reachability under pool interleavings. -/
def SchedReachable : SchedState → SchedState → Prop :=
  Relation.ReflTransGen SchedStep

/-- The state right after `handleStart` spawned its workers:
`min(concurrency, queue.length)` idle workers over the filtered queue. -/
def initSchedState (statuses : List String) (queue : List Nat)
    (concurrency : Nat) : SchedState :=
  ⟨statuses, queue, List.replicate (spawnCount concurrency queue.length) none⟩

/-- The number of jobs currently in an active processing status. -/
def processingCount (s : SchedState) : Nat :=
  ((List.range s.statuses.length).filter
    (fun i => activeAttemptStatus ((s.statuses.get? i).getD ""))).length

/-- The pool invariant: every job in an active processing status is being
driven by some worker, no index occurs twice among the queue and the busy
workers, and the worker-slot count is fixed. -/
def SchedInv (w : Nat) (s : SchedState) : Prop :=
  (∀ i, activeAttemptStatus ((s.statuses.get? i).getD "") = true →
    i ∈ busyList s) ∧
  (s.queue ++ busyList s).Nodup ∧
  s.workers.length = w

/-! ## Per-attempt progress steps (for per-job monotonicity)

One attempt of a quality-target job, seen from the front end, is a stream of
`vmaf-search-progress` events (non-decreasing iterations over a fixed
iteration budget) followed by `video-progress` events of the compression
phase (`"Found CRF …"` statuses, raw values in `[50,100]` arriving in
non-decreasing order), with plain pass-through events (`"Processing"` and
friends) likewise arriving in non-decreasing raw order. `AttemptStep`
packages one delivered event together with the in-order-delivery assumptions
of the spec (§5): each constructor records how the current record state was
produced by the previous event of the same phase. -/

inductive AttemptStep : FileJob → FileJob → Prop
  | searchFirst (f : FileJob) (ev : SearchEvent)
      (hp : f.progress.getD 0 ≤ 0) :
      AttemptStep f (applySearchProgressToFile f ev)
  | searchNext (f : FileJob) (prev ev : SearchEvent)
      (hm : 0 < prev.maxIterations)
      (hsame : ev.maxIterations = prev.maxIterations)
      (hmono : prev.iteration ≤ ev.iteration)
      (hp : f.progress =
        some ((searchPhaseProgress prev.iteration prev.maxIterations : ℤ) : ℚ)) :
      AttemptStep f (applySearchProgressToFile f ev)
  | compressFirst (f : FileJob) (ev : ProgressEvent) (i m : Nat)
      (hm : 0 < m) (him : i ≤ m)
      (hse : f.vmafSearchEndProgress = some ((searchPhaseProgress i m : ℤ) : ℚ))
      (hp : f.progress = some ((searchPhaseProgress i m : ℤ) : ℚ))
      (hfound : strStartsWith ev.status "Found CRF" = true)
      (hnp : strStartsWith ev.status "Processing" = false)
      (hraw : 50 ≤ ev.progress) :
      AttemptStep f (applyVideoProgressToFile f ev)
  | compressNext (f : FileJob) (ev : ProgressEvent) (i m : Nat) (prevRaw : ℚ)
      (hm : 0 < m) (him : i ≤ m)
      (hse : f.vmafSearchEndProgress = some ((searchPhaseProgress i m : ℤ) : ℚ))
      (hp : f.progress = some (foundCrfAdjustedProgress
        ((searchPhaseProgress i m : ℤ) : ℚ) prevRaw))
      (hfound : strStartsWith ev.status "Found CRF" = true)
      (hnp : strStartsWith ev.status "Processing" = false)
      (hprev : 50 ≤ prevRaw) (hmono : prevRaw ≤ ev.progress) :
      AttemptStep f (applyVideoProgressToFile f ev)
  | passthrough (f : FileJob) (ev : ProgressEvent)
      (hnf : strStartsWith ev.status "Found CRF" = false)
      (hmono : f.progress.getD 0 ≤ ev.progress) :
      AttemptStep f (applyVideoProgressToFile f ev)

/-- Event deliveries over one attempt. -/
def AttemptRun : FileJob → FileJob → Prop :=
  Relation.ReflTransGen AttemptStep

/-! # Theorems -/

/-! ## C5 — Output Path Resolver reference vectors -/

/-- C5: the Output Path Resolver satisfies the two reference vectors:
`resolve("/root/sub/a.mp4","/root","/out","mkv","_c") = "/out/sub/a_c.mkv"`
(subdirectory structure preserved under the output root) and
`resolve("/root/a.mp4","/root","/root","mp4","") = "/root/a.mp4"` (in-place
mode with empty suffix). Note the source's argument order is
`(input, outputDir, format, suffix, inputRoot)`. -/
theorem c5_output_path_reference_vectors :
    getOutputFilePath "/root/sub/a.mp4" "/out" "mkv" "_c" "/root" =
      "/out/sub/a_c.mkv" ∧
    getOutputFilePath "/root/a.mp4" "/root" "mp4" "" "/root" =
      "/root/a.mp4" := by
  decide

/-! ## C10 — prefix test without a path-separator boundary check -/

/-- C10: the resolver decides "is under the scan root" by a case-insensitive
string-prefix test with no separator-boundary check: `"/rootarchive/a.mp4"`
with scan root `"/root"` and output root `"/out"` is re-rooted to
`"/outarchive/a.mp4"` (not left in its own directory `/rootarchive`), and the
prefix comparison is case-insensitive (`"/Root/sub/a.mp4"` is treated as
under `"/root"`). -/
theorem c10_prefix_without_boundary_check :
    getOutputFilePath "/rootarchive/a.mp4" "/out" "mp4" "" "/root" =
      "/outarchive/a.mp4" ∧
    getOutputFilePath "/Root/sub/a.mp4" "/out" "mp4" "" "/root" =
      "/out/sub/a.mp4" := by
  decide

/-! ## C7 — session aggregate progress -/

/-- The per-job contribution computed by `processingStats` coincides with the
spec's description of it. -/
lemma jobContribution_eq_spec (f : FileJob) :
    jobContribution f = specJobContribution f := by
  unfold jobContribution specJobContribution inProgressStatus
  by_cases h1 : (f.status = "Done" || f.status = "Evaluating" ||
      f.status = "Waiting for VMAF" || f.status = "Skipped") = true
  · simp [h1]
  · by_cases h2 : f.status = "Processing (Pass 1/2)"
    · have hp : strStartsWith "Processing (Pass 1/2)" "Processing" = true := by
        decide
      simp [h1, h2, hp]
    · by_cases h3 : f.status = "Processing (Pass 2/2)"
      · have hp : strStartsWith "Processing (Pass 2/2)" "Processing" = true := by
          decide
        simp [h1, h2, h3, hp]
      · by_cases h4 : strStartsWith f.status "Searching CRF" = true
        · simp [h1, h2, h3, h4]
        · by_cases h5 : strStartsWith f.status "Found CRF" = true
          · simp [h1, h2, h3, h4, h5]
          · by_cases h6 : strStartsWith f.status "Processing" = true
            · simp [h1, h2, h3, h4, h5, h6]
            · simp [h1, h2, h3, h4, h5, h6]

/-- C7: the session aggregate progress equals the sum over all jobs of the
spec's per-job contribution (1 for the done/evaluating/skipped family,
`progress/100` for any in-progress status, 0 otherwise — in particular for
`Queued`(`"Pending"`)/`Error`/`Cancelled`), divided by the job count and
scaled to 0–100. -/
theorem c7_aggregate_progress (files : List FileJob) (h : 0 < files.length) :
    totalProgress files =
      ((files.map specJobContribution).sum / (files.length : ℚ)) * 100 := by
  unfold totalProgress
  rw [if_pos h, funext jobContribution_eq_spec]

/-- Witness for `c7_aggregate_progress` at a concrete two-job session. -/
theorem c7_aggregate_progress_witness :
    totalProgress
      [⟨"a", "Done", some 100, none, none, none, none, none, none⟩,
       ⟨"b", "Processing", some 50, none, none, none, none, none, none⟩] =
      ((List.map specJobContribution
        [⟨"a", "Done", some 100, none, none, none, none, none, none⟩,
         ⟨"b", "Processing", some 50, none, none, none, none, none, none⟩]).sum
        / 2) * 100 := by
  have := c7_aggregate_progress
    [⟨"a", "Done", some 100, none, none, none, none, none, none⟩,
     ⟨"b", "Processing", some 50, none, none, none, none, none, none⟩]
    (by decide)
  simpa using this

/-! ## C1 — is a `Cancelled` status sticky against all later events? -/

/-- C1 counterexample: a `Cancelled` job does NOT discard every later event.
A `video-progress` event carrying the completion status `"Done"` overwrites
the status and the progress, and a `vmaf-search-progress` event (whose
listener has no `Cancelled` guard at all) overwrites the status as well. -/
theorem c1_cancelled_sticky_counterexample :
    (applyVideoProgressToFile
      ⟨"a", "Cancelled", some 0, none, none, none, none, none, none⟩
      ⟨"a", 100, "Done", none, none, none, none, none⟩).status ≠ "Cancelled" ∧
    (applyVideoProgressToFile
      ⟨"a", "Cancelled", some 0, none, none, none, none, none, none⟩
      ⟨"a", 100, "Done", none, none, none, none, none⟩).progress = some 100 ∧
    (applySearchProgressToFile
      ⟨"a", "Cancelled", some 0, none, none, none, none, none, none⟩
      ⟨"a", 1, 8, 20, 0, 95, none, none⟩).status ≠ "Cancelled" := by
  refine ⟨by decide, by decide, by decide⟩

/-- C1 (amended): for a `Cancelled` job, exactly the `video-progress` events
whose status tag starts with `"Processing"` are discarded — such an event
leaves the record (status and progress included) completely unchanged.
Events with other status tags, and all search-phase events, are applied. -/
theorem c1_cancelled_drops_processing_events (f : FileJob)
    (ev : ProgressEvent) (hc : f.status = "Cancelled")
    (hp : strStartsWith ev.status "Processing" = true) :
    applyVideoProgressToFile f ev = f := by
  unfold applyVideoProgressToFile
  simp [hc, hp]

/-- Witness for `c1_cancelled_drops_processing_events`. -/
theorem c1_cancelled_drops_processing_events_witness :
    applyVideoProgressToFile
      ⟨"a", "Cancelled", some 70, none, none, none, none, none, none⟩
      ⟨"a", 95, "Processing", none, none, none, none, none⟩ =
      ⟨"a", "Cancelled", some 70, none, none, none, none, none, none⟩ :=
  c1_cancelled_drops_processing_events _ _ rfl (by decide)

/-! ## C3 — quality-target compression-phase progress mapping -/

/-- C3 counterexample: the displayed progress is the *rounded* value of the
claimed expression, not the expression itself. With baseline 30 and raw 51
the code displays 31 while the claim's formula gives 31.4. -/
theorem c3_mapping_counterexample :
    (applyVideoProgressToFile
      ⟨"a", "Found CRF 23", some 30, some 30, none, none, none, none, none⟩
      ⟨"a", 51, "Found CRF 23", none, none, none, none, none⟩).progress =
      some 31 ∧
    (30 : ℚ) + ((51 - 50) * 2 / 100) * (100 - 30) ≠ 31 := by
  constructor
  · have h1 : strStartsWith "Found CRF 23" "Found CRF" = true := by decide
    have h2 : strStartsWith "Found CRF 23" "Processing" = false := by decide
    simp only [applyVideoProgressToFile, h1, h2, Bool.and_false, if_false,
      Bool.and_eq_true]
    simp only [if_true, Option.getD_some]
    norm_num [foundCrfAdjustedProgress, round_eq]
  · norm_num

/-- C3 (amended): for every compression-phase (`"Found CRF …"`) event with
raw value ≥ 50, the displayed progress is
`Math.round(searchPhaseEndProgress + ((raw-50)*2/100)*(100-searchPhaseEndProgress))`,
and when no search-end baseline was recorded the baseline used is 50. -/
theorem c3_compression_phase_mapping (f : FileJob) (ev : ProgressEvent)
    (b : ℚ) (hfound : strStartsWith ev.status "Found CRF" = true)
    (hnp : strStartsWith ev.status "Processing" = false)
    (hraw : 50 ≤ ev.progress) :
    (f.vmafSearchEndProgress = some b →
      (applyVideoProgressToFile f ev).progress =
        some ((round (b + ((ev.progress - 50) * 2 / 100) * (100 - b)) : ℤ) : ℚ)) ∧
    (f.vmafSearchEndProgress = none →
      (applyVideoProgressToFile f ev).progress =
        some ((round ((50 : ℚ) + ((ev.progress - 50) * 2 / 100) * (100 - 50)) : ℤ) : ℚ)) := by
  have hmax : max 0 ((ev.progress - 50) * 2) = (ev.progress - 50) * 2 := by
    rw [max_eq_right]; linarith
  constructor
  · intro hb
    have hred : (applyVideoProgressToFile f ev).progress =
        some (foundCrfAdjustedProgress b ev.progress) := by
      simp [applyVideoProgressToFile, hnp, hfound, hb]
    rw [hred, foundCrfAdjustedProgress, hmax]
  · intro hb
    have hred : (applyVideoProgressToFile f ev).progress =
        some (foundCrfAdjustedProgress 50 ev.progress) := by
      simp [applyVideoProgressToFile, hnp, hfound, hb]
    rw [hred, foundCrfAdjustedProgress, hmax]

/-- Witness for `c3_compression_phase_mapping` at baseline 30, raw 60. -/
theorem c3_compression_phase_mapping_witness :
    (applyVideoProgressToFile
      ⟨"a", "Found CRF 23", some 30, some 30, none, none, none, none, none⟩
      ⟨"a", 60, "Found CRF 23", none, none, none, none, none⟩).progress =
      some ((round ((30 : ℚ) + (((60 : ℚ) - 50) * 2 / 100) * (100 - 30)) : ℤ) : ℚ) :=
  (c3_compression_phase_mapping _ _ 30 (by decide) (by decide)
    (by norm_num)).1 rfl

/-! ## C4 — search-phase progress mapping and baseline recording -/

/-- C4: a search-phase event with iteration `i` of `m` sets the displayed
progress to `Math.round((i/m)*50)`, records the same value as the job's
`vmafSearchEndProgress`, and that recorded value is the baseline any later
compression-phase (`"Found CRF …"`) event is scaled from. -/
theorem c4_search_phase_progress (f : FileJob) (ev : SearchEvent)
    (_hm : 0 < ev.maxIterations) :
    (applySearchProgressToFile f ev).progress =
      some ((round ((ev.iteration : ℚ) / (ev.maxIterations : ℚ) * 50) : ℤ) : ℚ) ∧
    (applySearchProgressToFile f ev).vmafSearchEndProgress =
      some ((round ((ev.iteration : ℚ) / (ev.maxIterations : ℚ) * 50) : ℤ) : ℚ) ∧
    ∀ ev' : ProgressEvent, strStartsWith ev'.status "Found CRF" = true →
      strStartsWith ev'.status "Processing" = false →
      (applyVideoProgressToFile (applySearchProgressToFile f ev) ev').progress =
        some (foundCrfAdjustedProgress
          ((round ((ev.iteration : ℚ) / (ev.maxIterations : ℚ) * 50) : ℤ) : ℚ)
          ev'.progress) := by
  refine ⟨rfl, rfl, ?_⟩
  intro ev' hfound hnp
  simp [applyVideoProgressToFile, hnp, hfound, applySearchProgressToFile,
    searchPhaseProgress]

/-- Witness for `c4_search_phase_progress` at iteration 2 of 8. -/
theorem c4_search_phase_progress_witness :
    (applySearchProgressToFile
      ⟨"a", "Processing", some 0, none, none, none, none, none, none⟩
      ⟨"a", 2, 8, 20, 0, 95, none, none⟩).progress =
      some ((round ((2 : ℚ) / (8 : ℚ) * 50) : ℤ) : ℚ) :=
  (c4_search_phase_progress _ _ (by decide)).1

/-! ## C8 — does starting the session re-enqueue `Cancelled` jobs? -/

/-- C8 counterexample: `handleStart` filters out only `"Done"` and
`"Error"`; a `Cancelled` job passes the filter, so starting the session
automatically re-enqueues it without any explicit per-job retry. -/
theorem c8_start_reenqueues_cancelled_counterexample :
    handleStartQueue
      [⟨"a", "Cancelled", some 0, none, none, none, none, none, none⟩]
      (List.range 1) = [0] ∧
    pendingFilter
      ⟨"a", "Cancelled", some 0, none, none, none, none, none, none⟩ = true := by
  decide

/-- C8 (amended): the queue built by `handleStart` contains exactly the jobs
whose status is neither `"Done"` nor `"Error"` — so `Error` jobs are never
re-enqueued automatically, but `Cancelled` jobs are. -/
theorem c8_start_queue_membership (files : List FileJob) (order : List Nat)
    (i : Nat) (hi : i < files.length) :
    i ∈ handleStartQueue files order ↔
      i ∈ order ∧ (files.get ⟨i, hi⟩).status ≠ "Done" ∧
        (files.get ⟨i, hi⟩).status ≠ "Error" := by
  unfold handleStartQueue pendingFilter
  rw [List.mem_filter, List.get?_eq_get hi]
  simp

/-- Witness for `c8_start_queue_membership` on a one-job session. -/
theorem c8_start_queue_membership_witness :
    0 ∈ handleStartQueue
      [⟨"a", "Cancelled", some 0, none, none, none, none, none, none⟩]
      (List.range 1) ↔
    0 ∈ List.range 1 ∧
      (([⟨"a", "Cancelled", some 0, none, none, none, none, none, none⟩] :
        List FileJob).get ⟨0, by decide⟩).status ≠ "Done" ∧
      (([⟨"a", "Cancelled", some 0, none, none, none, none, none, none⟩] :
        List FileJob).get ⟨0, by decide⟩).status ≠ "Error" :=
  c8_start_queue_membership _ _ 0 (by decide)

/-! ## C9 — per-file subprocess failure is contained -/

/-- C9: when the subprocess invocation for job `i` fails, the worker marks
exactly that job `Error` (keeping its attempt-start progress reset) and
continues with the remaining queue — the failure neither halts the worker
loop nor touches any other job's record. -/
theorem c9_failure_contained (invokeFails : Nat → Bool) (files : List FileJob)
    (i : Nat) (rest : List Nat) (f : FileJob)
    (hfail : invokeFails i = true) (hf : files.get? i = some f) :
    runWorker invokeFails (fun _ fs => fs) false false files (i :: rest) =
      runWorker invokeFails (fun _ fs => fs) false false
        (files.set i { f with status := "Error", progress := some 0 }) rest ∧
    ∀ j, j ≠ i →
      (files.set i { f with status := "Error", progress := some 0 }).get? j =
        files.get? j := by
  obtain ⟨hi, -⟩ := List.get?_eq_some.mp hf
  have h1 : startJob files i =
      files.set i { f with status := "Processing", progress := some 0 } := by
    unfold startJob listModify
    rw [hf]
  have h2 : markError
      (files.set i { f with status := "Processing", progress := some 0 }) i =
      files.set i { f with status := "Error", progress := some 0 } := by
    unfold markError listModify
    rw [List.get?_set_eq_of_lt _ (by simpa using hi)]
    simp [List.set_set]
  constructor
  · simp only [runWorker, Bool.or_self, Bool.false_eq_true, if_false, hfail,
      if_true, h1, h2]
  · intro j hj
    exact List.get?_set_ne _ _ hj.symm

/-- Witness for `c9_failure_contained`: a two-job queue whose first job's
subprocess fails. -/
theorem c9_failure_contained_witness :
    runWorker (fun i => i = 0) (fun _ fs => fs) false false
      [⟨"a", "Pending", none, none, none, none, none, none, none⟩,
       ⟨"b", "Pending", none, none, none, none, none, none, none⟩] [0, 1] =
      runWorker (fun i => i = 0) (fun _ fs => fs) false false
        (([⟨"a", "Pending", none, none, none, none, none, none, none⟩,
           ⟨"b", "Pending", none, none, none, none, none, none, none⟩] :
          List FileJob).set 0
          ⟨"a", "Error", some 0, none, none, none, none, none, none⟩) [1] := by
  have h := c9_failure_contained (fun i => decide (i = 0))
    [⟨"a", "Pending", none, none, none, none, none, none, none⟩,
     ⟨"b", "Pending", none, none, none, none, none, none, none⟩] 0 [1]
    ⟨"a", "Pending", none, none, none, none, none, none, none⟩ (by decide) rfl
  exact h.1

/-! ## C6 — per-attempt progress monotonicity -/

/-- `round` is monotone on `ℚ`. -/
lemma roundMonoQ {x y : ℚ} (h : x ≤ y) : round x ≤ round y := by
  rw [round_eq, round_eq]
  exact Int.floor_mono (by linarith)

/-- The search-phase mapping is non-negative. -/
lemma searchPhaseProgress_nonneg (i m : Nat) : 0 ≤ searchPhaseProgress i m := by
  unfold searchPhaseProgress
  have h : (0 : ℚ) ≤ (i : ℚ) / (m : ℚ) * 50 := by positivity
  have := roundMonoQ h
  simpa using this

/-- The search-phase mapping stays within the reserved 0–50 band. -/
lemma searchPhaseProgress_le_50 (i m : Nat) (him : i ≤ m) :
    searchPhaseProgress i m ≤ 50 := by
  unfold searchPhaseProgress
  rcases Nat.eq_zero_or_pos m with hm | hm
  · subst hm
    interval_cases i
    simp [round_eq]
    norm_num
  · have h1 : (i : ℚ) / (m : ℚ) ≤ 1 := by
      rw [div_le_one (by exact_mod_cast hm)]
      exact_mod_cast him
    have h2 : (i : ℚ) / (m : ℚ) * 50 ≤ 50 := by nlinarith
    have := roundMonoQ h2
    calc round ((i : ℚ) / (m : ℚ) * 50) ≤ round (50 : ℚ) := this
    _ = 50 := by rw [round_eq]; norm_num

/-- The search-phase mapping is monotone in the iteration counter. -/
lemma searchPhaseProgress_mono (i i' m : Nat) (hm : 0 < m) (h : i ≤ i') :
    searchPhaseProgress i m ≤ searchPhaseProgress i' m := by
  apply roundMonoQ
  have hm' : (0 : ℚ) < (m : ℚ) := by exact_mod_cast hm
  have hi : (i : ℚ) ≤ (i' : ℚ) := by exact_mod_cast h
  gcongr

/-- The compression-phase mapping never drops below its (integer) baseline. -/
lemma foundCrf_ge_base (b : ℤ) (raw : ℚ) (hb : b ≤ 100) :
    (b : ℚ) ≤ foundCrfAdjustedProgress (b : ℚ) raw := by
  unfold foundCrfAdjustedProgress
  show (b : ℚ) ≤
    ((round ((b : ℚ) + max 0 ((raw - 50) * 2) / 100 * (100 - (b : ℚ))) : ℤ) : ℚ)
  have hb' : ((b : ℚ)) ≤ 100 := by exact_mod_cast hb
  have ht : 0 ≤ max 0 ((raw - 50) * 2) / 100 * (100 - (b : ℚ)) := by
    apply mul_nonneg
    · positivity
    · linarith
  have h := roundMonoQ (show ((b : ℤ) : ℚ) ≤
    (b : ℚ) + max 0 ((raw - 50) * 2) / 100 * (100 - (b : ℚ)) by linarith)
  rw [round_intCast] at h
  exact_mod_cast h

/-- The compression-phase mapping is monotone in the raw percentage. -/
lemma foundCrf_mono_raw (b : ℤ) (hb : b ≤ 100) {r r' : ℚ} (h : r ≤ r') :
    foundCrfAdjustedProgress (b : ℚ) r ≤ foundCrfAdjustedProgress (b : ℚ) r' := by
  unfold foundCrfAdjustedProgress
  show ((round ((b : ℚ) + max 0 ((r - 50) * 2) / 100 * (100 - (b : ℚ))) : ℤ) : ℚ) ≤
    ((round ((b : ℚ) + max 0 ((r' - 50) * 2) / 100 * (100 - (b : ℚ))) : ℤ) : ℚ)
  have hb' : (0 : ℚ) ≤ 100 - (b : ℚ) := by
    have : ((b : ℚ)) ≤ 100 := by exact_mod_cast hb
    linarith
  have hmax : max 0 ((r - 50) * 2) ≤ max 0 ((r' - 50) * 2) :=
    max_le_max le_rfl (by linarith)
  have hdiv : max 0 ((r - 50) * 2) / 100 ≤ max 0 ((r' - 50) * 2) / 100 := by
    gcongr
  have harg : (b : ℚ) + max 0 ((r - 50) * 2) / 100 * (100 - (b : ℚ)) ≤
      (b : ℚ) + max 0 ((r' - 50) * 2) / 100 * (100 - (b : ℚ)) := by
    have := mul_le_mul_of_nonneg_right hdiv hb'
    linarith
  exact_mod_cast roundMonoQ harg

/-- Every single event delivery of an attempt keeps the displayed progress
non-decreasing. -/
lemma attemptStep_progress_mono {f g : FileJob} (h : AttemptStep f g) :
    f.progress.getD 0 ≤ g.progress.getD 0 := by
  cases h with
  | searchFirst ev hp =>
      simp only [applySearchProgressToFile, Option.getD_some]
      have h0 : ((0 : ℤ) : ℚ) ≤
          ((searchPhaseProgress ev.iteration ev.maxIterations : ℤ) : ℚ) := by
        exact_mod_cast searchPhaseProgress_nonneg ev.iteration ev.maxIterations
      calc f.progress.getD 0 ≤ 0 := hp
      _ ≤ _ := by exact_mod_cast h0
  | searchNext prev ev hm hsame hmono hp =>
      simp only [applySearchProgressToFile, Option.getD_some]
      rw [hp, Option.getD_some, hsame]
      exact_mod_cast searchPhaseProgress_mono prev.iteration ev.iteration
        prev.maxIterations hm hmono
  | compressFirst ev i m hm him hse hp hfound hnp hraw =>
      have hred : (applyVideoProgressToFile f ev).progress =
          some (foundCrfAdjustedProgress ((searchPhaseProgress i m : ℤ) : ℚ)
            ev.progress) := by
        simp [applyVideoProgressToFile, hnp, hfound, hse]
      rw [hred, hp]
      simp only [Option.getD_some]
      exact foundCrf_ge_base _ _
        ((searchPhaseProgress_le_50 i m him).trans (by norm_num))
  | compressNext ev i m prevRaw hm him hse hp hfound hnp hprev hmono =>
      have hred : (applyVideoProgressToFile f ev).progress =
          some (foundCrfAdjustedProgress ((searchPhaseProgress i m : ℤ) : ℚ)
            ev.progress) := by
        simp [applyVideoProgressToFile, hnp, hfound, hse]
      rw [hred, hp]
      simp only [Option.getD_some]
      exact foundCrf_mono_raw _
        ((searchPhaseProgress_le_50 i m him).trans (by norm_num)) hmono
  | passthrough ev hnf hmono =>
      unfold applyVideoProgressToFile
      by_cases hg : (decide (f.status = "Cancelled") &&
          strStartsWith ev.status "Processing") = true
      · rw [if_pos hg]
      · rw [if_neg hg]
        simp only [hnf, Bool.false_eq_true, if_false, Option.getD_some]
        exact hmono

/-- C6 counterexample: cancelling a job with an active attempt resets its
displayed progress to 0 (`handleCancel`, line 942) while moving it to the
terminal `Cancelled` status — the reset is not confined to re-queueing. -/
theorem c6_cancel_resets_progress_counterexample :
    (cancelFile ⟨"a", "Processing", some 70, none, none, none, none, none,
      none⟩).progress = some 0 ∧
    (cancelFile ⟨"a", "Processing", some 70, none, none, none, none, none,
      none⟩).status = "Cancelled" := by
  decide

/-- C6 (amended): along any attempt — any sequence of in-order search-phase,
compression-phase and pass-through events — the displayed progress is
monotonically non-decreasing; progress is reset to 0 not only on re-queue
but also by cancellation, which `handleCancel` performs together with the
transition to `Cancelled`. -/
theorem c6_progress_monotone :
    (∀ f : FileJob, activeAttemptStatus f.status = true →
      (cancelFile f).progress = some 0 ∧ (cancelFile f).status = "Cancelled") ∧
    (∀ f g : FileJob, AttemptRun f g →
      f.progress.getD 0 ≤ g.progress.getD 0) := by
  constructor
  · intro f hf
    unfold cancelFile
    rw [if_pos hf]
    exact ⟨rfl, rfl⟩
  · intro f g h
    induction h with
    | refl => exact le_rfl
    | tail _ hstep ih => exact ih.trans (attemptStep_progress_mono hstep)

/-- Witness for `c6_progress_monotone`: a cancelled `Processing` job, and a
one-event attempt run starting from a fresh attempt. -/
theorem c6_progress_monotone_witness :
    (cancelFile ⟨"a", "Processing", some 70, none, none, none, none, none,
      none⟩).progress = some 0 ∧
    ((⟨"a", "Processing", some 0, none, none, none, none, none, none⟩ :
      FileJob).progress.getD 0 ≤
      (applySearchProgressToFile
        ⟨"a", "Processing", some 0, none, none, none, none, none, none⟩
        ⟨"a", 1, 8, 20, 0, 95, none, none⟩).progress.getD 0) :=
  ⟨(c6_progress_monotone.1
      ⟨"a", "Processing", some 70, none, none, none, none, none, none⟩
      (by decide)).1,
    c6_progress_monotone.2 _ _ (Relation.ReflTransGen.single
      (AttemptStep.searchFirst _ _ (by norm_num)))⟩

/-! ## C2 — worker-pool concurrency bound -/

/-- A worker slot holding job `i` witnesses `i ∈ busyList`. -/
lemma mem_filterMap_id_of_get? {ws : List (Option Nat)} {w i : Nat}
    (hw : ws.get? w = some (some i)) : i ∈ ws.filterMap id := by
  exact List.mem_filterMap.mpr ⟨some i, List.get?_mem hw, rfl⟩

/-- Filling an idle worker slot with job `i` adds exactly one occurrence of
`i` to the busy list. -/
lemma filterMap_id_set_some {ws : List (Option Nat)} {w i : Nat}
    (hw : ws.get? w = some none) :
    List.Perm ((ws.set w (some i)).filterMap id) (i :: ws.filterMap id) := by
  induction ws generalizing w with
  | nil => simp at hw
  | cons o t ih =>
      cases w with
      | zero =>
          obtain rfl : o = none := by simpa using hw
          simp
      | succ w' =>
          have hw' : t.get? w' = some none := by simpa using hw
          cases o with
          | none =>
              simpa using ih hw'
          | some j =>
              simp only [List.set, List.filterMap_cons, id]
              exact ((ih hw').cons j).trans (List.Perm.swap i j _)


/-- Clearing a worker slot that held job `i` removes exactly one occurrence
of `i` from the busy list. -/
lemma filterMap_id_set_none {ws : List (Option Nat)} {w i : Nat}
    (hw : ws.get? w = some (some i)) :
    List.Perm ((ws.set w none).filterMap id) ((ws.filterMap id).erase i) := by
  induction ws generalizing w with
  | nil => simp at hw
  | cons o t ih =>
      cases w with
      | zero =>
          obtain rfl : o = some i := by simpa using hw
          simp [List.erase_cons_head]
      | succ w' =>
          have hw' : t.get? w' = some (some i) := by simpa using hw
          cases o with
          | none =>
              simpa using ih hw'
          | some j =>
              simp only [List.set, List.filterMap_cons, id]
              by_cases hji : j = i
              · subst hji
                rw [List.erase_cons_head]
                exact ((ih hw').cons j).trans
                  (List.perm_cons_erase (mem_filterMap_id_of_get? hw')).symm
              · rw [List.erase_cons_tail]
                · exact (ih hw').cons j
                · simp [hji]

/-- The empty status (out-of-range default) is not an active status. -/
lemma activeAttemptStatus_empty : activeAttemptStatus "" = false := by decide

/-- Every pool step preserves the scheduler invariant. -/
lemma schedStep_inv {W : Nat} {s t : SchedState} (hstep : SchedStep s t)
    (hinv : SchedInv W s) : SchedInv W t := by
  obtain ⟨hbusy, hnd, hlen⟩ := hinv
  cases hstep with
  | pop w i rest hw hq =>
      have hperm := filterMap_id_set_some (i := i) hw
      refine ⟨?_, ?_, ?_⟩
      · intro j hj
        show j ∈ (s.workers.set w (some i)).filterMap id
        rw [hperm.mem_iff]
        by_cases hji : j = i
        · exact hji ▸ List.mem_cons_self _ _
        · right
          apply hbusy
          rwa [List.get?_set_ne _ _ (Ne.symm hji)] at hj
      · show ((rest : List Nat) ++ (s.workers.set w (some i)).filterMap id).Nodup
        have h1 : List.Perm (rest ++ (s.workers.set w (some i)).filterMap id)
            (rest ++ (i :: s.workers.filterMap id)) := List.Perm.append_left rest hperm
        have h2 : List.Perm (rest ++ (i :: s.workers.filterMap id))
            (i :: (rest ++ s.workers.filterMap id)) := List.perm_middle
        rw [(h1.trans h2).nodup_iff]
        have : ((i :: rest) ++ busyList s).Nodup := hq ▸ hnd
        simpa [busyList] using this
      · simpa using hlen
  | event w i st hw =>
      refine ⟨?_, hnd, hlen⟩
      intro j hj
      by_cases hji : j = i
      · subst hji
        exact mem_filterMap_id_of_get? hw
      · apply hbusy
        rwa [List.get?_set_ne _ _ (Ne.symm hji)] at hj
  | finish w i st hw hst =>
      have hperm := filterMap_id_set_none hw
      refine ⟨?_, ?_, ?_⟩
      · intro j hj
        show j ∈ (s.workers.set w none).filterMap id
        rw [hperm.mem_iff]
        by_cases hji : j = i
        · subst hji
          exfalso
          by_cases hi : j < s.statuses.length
          · rw [List.get?_set_eq_of_lt _ hi] at hj
            simp only [Option.getD_some] at hj
            rw [hst] at hj
            exact Bool.false_ne_true hj
          · have hge : s.statuses.length ≤ j := by omega
            rw [List.set_eq_of_length_le hge, List.get?_eq_none.mpr hge] at hj
            simp only [Option.getD_none] at hj
            rw [activeAttemptStatus_empty] at hj
            exact Bool.false_ne_true hj
        · refine List.mem_erase_of_ne hji |>.mpr ?_ -- check direction
          apply hbusy
          rwa [List.get?_set_ne _ _ (Ne.symm hji)] at hj
      · have h1 : (s.queue ++ (s.workers.filterMap id).erase i).Nodup := by
          have hsub : (s.queue ++ (s.workers.filterMap id).erase i).Sublist
              (s.queue ++ s.workers.filterMap id) :=
            List.Sublist.append_left (List.erase_sublist _ _) _
          exact hnd.sublist hsub
        show (s.queue ++ (s.workers.set w none).filterMap id).Nodup
        rw [(List.Perm.append_left s.queue hperm).nodup_iff]
        exact h1
      · simpa using hlen

/-- Under the invariant, the number of jobs in an active processing status is
bounded by the worker-slot count. -/
lemma processingCount_le_of_inv {W : Nat} {s : SchedState}
    (hinv : SchedInv W s) : processingCount s ≤ W := by
  obtain ⟨hbusy, _, hlen⟩ := hinv
  unfold processingCount
  have hnd : ((List.range s.statuses.length).filter
      (fun i => activeAttemptStatus ((s.statuses.get? i).getD ""))).Nodup :=
    (List.nodup_range _).filter _
  have hsub : ((List.range s.statuses.length).filter
      (fun i => activeAttemptStatus ((s.statuses.get? i).getD ""))) ⊆
      busyList s := by
    intro i hi
    rw [List.mem_filter] at hi
    exact hbusy i (by simpa using hi.2)
  calc ((List.range s.statuses.length).filter
      (fun i => activeAttemptStatus ((s.statuses.get? i).getD ""))).length
      ≤ (busyList s).length := (hnd.subperm hsub).length_le
    _ ≤ s.workers.length := List.length_filterMap_le _ _
    _ = W := hlen

/-- Right after spawning, no worker is busy. -/
lemma busyList_init (statuses : List String) (queue : List Nat) (c : Nat) :
    busyList (initSchedState statuses queue c) = [] := by
  unfold busyList initSchedState
  induction spawnCount c queue.length with
  | zero => rfl
  | succ n ih => simp only [List.replicate_succ, List.filterMap_cons, id]; exact ih

/-- C2: `handleStart` spawns exactly `min(concurrency, queue.length)` workers
over the filtered queue (first conjunct), and along every interleaving of the
pool — where each worker holds at most one job and the shared `queue.shift()`
dequeue removes the head so no two workers can obtain the same job — the
number of jobs in an active processing status never exceeds the configured
concurrency limit (second conjunct). -/
theorem c2_concurrency_bound (files : List FileJob) (order : List Nat) (concurrency : Nat)
    (horder : order.Nodup)
    (hidle : ∀ f ∈ files, activeAttemptStatus f.status = false) :
    (initSchedState (files.map FileJob.status) (handleStartQueue files order)
      concurrency).workers.length =
      min concurrency (handleStartQueue files order).length ∧
    ∀ s, SchedReachable (initSchedState (files.map FileJob.status)
        (handleStartQueue files order) concurrency) s →
      processingCount s ≤ concurrency := by
  have hinv0 : SchedInv (min concurrency (handleStartQueue files order).length)
      (initSchedState (files.map FileJob.status) (handleStartQueue files order)
        concurrency) := by
    refine ⟨?_, ?_, ?_⟩
    · intro i hi
      exfalso
      by_cases hlt : i < (files.map FileJob.status).length
      · have hget : ((files.map FileJob.status).get? i).getD "" =
            (files.map FileJob.status).get ⟨i, hlt⟩ := by
          rw [List.get?_eq_get hlt, Option.getD_some]
        rw [show (initSchedState (files.map FileJob.status)
            (handleStartQueue files order) concurrency).statuses =
            files.map FileJob.status from rfl, hget] at hi
        have hmem := List.get_mem (files.map FileJob.status) i hlt
        rw [List.mem_map] at hmem
        obtain ⟨f, hf, hfeq⟩ := hmem
        rw [← hfeq] at hi
        rw [hidle f hf] at hi
        exact Bool.false_ne_true hi
      · have hge : (files.map FileJob.status).length ≤ i := by omega
        rw [show (initSchedState (files.map FileJob.status)
            (handleStartQueue files order) concurrency).statuses =
            files.map FileJob.status from rfl,
          List.get?_eq_none.mpr hge] at hi
        simp only [Option.getD_none] at hi
        rw [activeAttemptStatus_empty] at hi
        exact Bool.false_ne_true hi
    · rw [busyList_init, List.append_nil]
      exact ((List.filter_sublist order).nodup horder)
    · simp [initSchedState, spawnCount]
  constructor
  · simp [initSchedState, spawnCount]
  · intro s hs
    have hinv : SchedInv (min concurrency (handleStartQueue files order).length) s := by
      induction hs with
      | refl => exact hinv0
      | tail _ hstep ih => exact schedStep_inv hstep ih
    exact (processingCount_le_of_inv hinv).trans (min_le_left _ _)

/-- Witness for `c2_concurrency_bound`: a two-job queue with concurrency 1,
evaluated at the freshly spawned state. -/
theorem c2_concurrency_bound_witness :
    (initSchedState
      ((([⟨"a", "Pending", none, none, none, none, none, none, none⟩,
          ⟨"b", "Pending", none, none, none, none, none, none, none⟩] :
        List FileJob)).map FileJob.status)
      (handleStartQueue
        [⟨"a", "Pending", none, none, none, none, none, none, none⟩,
         ⟨"b", "Pending", none, none, none, none, none, none, none⟩] [0, 1])
      1).workers.length =
      min 1 (handleStartQueue
        [⟨"a", "Pending", none, none, none, none, none, none, none⟩,
         ⟨"b", "Pending", none, none, none, none, none, none, none⟩]
        [0, 1]).length ∧
    processingCount (initSchedState
      ((([⟨"a", "Pending", none, none, none, none, none, none, none⟩,
          ⟨"b", "Pending", none, none, none, none, none, none, none⟩] :
        List FileJob)).map FileJob.status)
      (handleStartQueue
        [⟨"a", "Pending", none, none, none, none, none, none, none⟩,
         ⟨"b", "Pending", none, none, none, none, none, none, none⟩] [0, 1])
      1) ≤ 1 := by
  have h := c2_concurrency_bound
    [⟨"a", "Pending", none, none, none, none, none, none, none⟩,
     ⟨"b", "Pending", none, none, none, none, none, none, none⟩]
    [0, 1] 1 (by decide) (by decide)
  exact ⟨h.1, h.2 _ Relation.ReflTransGen.refl⟩

end VideoCompressor

